import Mathlib

set_option maxRecDepth 400000

/-!
Verification of the MealOps API core: calendar/date utilities, the nutrition
aggregator, meal-plan reconciliation (GET/PUT `/meal-plans`), and the admin
role-change endpoint.  JavaScript `Date` values are modelled as UTC
milliseconds since the 1970 epoch (integers); JavaScript numbers are modelled
as rationals.
-/

namespace MealOps

/-! ## Calendar model

`new Date("YYYY-MM-DDT00:00:00.000Z")` follows the ECMAScript `MakeDay`
computation on the proleptic Gregorian calendar: a conforming date string
(month 01–12, day 01–31) yields the UTC-midnight instant obtained by adding
`day - 1` days to the first of the month (days beyond the month's length roll
over into the next month); non-conforming strings yield `NaN`.
`toISOString().slice(0, 10)` renders the zero-padded `YYYY-MM-DD` form.
We count days from 0000-01-01; 1970-01-01 is day 719528. -/

def dayMs : Int := 24 * 60 * 60 * 1000

def epochDayNumber : Nat := 719528

def isLeap (y : Nat) : Bool := (y % 4 == 0 && y % 100 != 0) || y % 400 == 0

def monthDays (y : Nat) : List Nat :=
  [31, if isLeap y then 29 else 28, 31, 30, 31, 30, 31, 31, 30, 31, 30, 31]

def daysInMonth (y m : Nat) : Nat := (monthDays y).getD (m - 1) 0

def daysInYear (y : Nat) : Nat := if isLeap y then 366 else 365

/-- Leap years strictly before year `y` (year 0 is a leap year). -/
def leapsBefore (y : Nat) : Nat := (y + 3) / 4 - (y + 99) / 100 + (y + 399) / 400

/-- Days from 0000-01-01 to the start of year `y`. -/
def daysBeforeYear (y : Nat) : Nat := 365 * y + leapsBefore y

/-- Days from the start of year `y` to the start of month `m` (1-based). -/
def daysBeforeMonth (y m : Nat) : Nat := ((monthDays y).take (m - 1)).sum

/-- Day number of year `y`, month `m`, day `d` (ECMAScript `MakeDay`:
days beyond the month's length roll over). -/
def toDay (y m d : Nat) : Nat := daysBeforeYear y + daysBeforeMonth y m + (d - 1)

/-- Milliseconds since the 1970 epoch of midnight on absolute day `n`. -/
def msOfDay (n : Nat) : Int := ((n : Int) - epochDayNumber) * dayMs

def toDate (y m d : Nat) : Int := msOfDay (toDay y m d)

/-- Scan years upward from `y` until the remaining day count fits. -/
def yearAux : Nat → Nat → Nat → Nat × Nat
  | 0, y, n => (y, n)
  | fuel + 1, y, n => if n < daysInYear y then (y, n) else yearAux fuel (y + 1) (n - daysInYear y)

/-- Scan month lengths until the remaining day count fits. -/
def monthAux : Nat → List Nat → Nat → Nat × Nat
  | m, [], k => (m, k + 1)
  | m, len :: rest, k => if k < len then (m, k + 1) else monthAux (m + 1) rest (k - len)

/-- Calendar triple `(y, m, d)` of absolute day `n`. -/
def fromDay (n : Nat) : Nat × Nat × Nat :=
  let (y, k) := yearAux 10000 0 n
  let (m, d) := monthAux 1 (monthDays y) k
  (y, m, d)

def digitChar (n : Nat) : Char := Char.ofNat (48 + n % 10)

def digitVal (c : Char) : Nat := c.toNat - 48

/-- The regex class `\d`: an ASCII decimal digit. -/
def isDigitChar (c : Char) : Bool := 48 ≤ c.toNat && c.toNat ≤ 57

def pad2 (n : Nat) : List Char := [digitChar (n / 10), digitChar n]

def pad4 (n : Nat) : List Char := [digitChar (n / 1000), digitChar (n / 100), digitChar (n / 10), digitChar n]

def dateString (y m d : Nat) : String :=
  String.mk (pad4 y ++ '-' :: (pad2 m ++ '-' :: pad2 d))

def dayOfDate (t : Int) : Nat := (t / dayMs + epochDayNumber).toNat

/-- `formatDateOnly`: `date.toISOString().slice(0, 10)`. -/
def formatDateOnly (t : Int) : String :=
  let (y, m, d) := fromDay (dayOfDate t)
  dateString y m d

/-- `new Date(\x7b y-m-d \x7dT00:00:00.000Z)`: `some` UTC-midnight instant for a
conforming date string (ECMAScript roll-over semantics), `none` for `NaN`. -/
def jsUtcDate (y m d : Nat) : Option Int :=
  if 1 ≤ m ∧ m ≤ 12 ∧ 1 ≤ d ∧ d ≤ 31 then some (toDate y m d) else none

/-- `parseDateOnly`: regex `^\d\x7b4\x7d-\d\x7b2\x7d-\d\x7b2\x7d$`, then the JS
`Date` constructor, then the render-back equality guard. -/
def parseDateOnly (s : String) : Option Int :=
  match s.data with
  | [c1, c2, c3, c4, h1, c5, c6, h2, c7, c8] =>
    if isDigitChar c1 && isDigitChar c2 && isDigitChar c3 && isDigitChar c4 && h1 == '-' &&
        isDigitChar c5 && isDigitChar c6 && h2 == '-' && isDigitChar c7 && isDigitChar c8 then
      let y := digitVal c1 * 1000 + digitVal c2 * 100 + digitVal c3 * 10 + digitVal c4
      let m := digitVal c5 * 10 + digitVal c6
      let d := digitVal c7 * 10 + digitVal c8
      match jsUtcDate y m d with
      | none => none
      | some t => if formatDateOnly t == s then some t else none
    else none
  | _ => none

/-- `isWithinWeek(date, weekStart)` from `server.ts`. -/
def isWithinWeek (date weekStart : Int) : Bool :=
  let diffMs := date - weekStart
  decide (0 ≤ diffMs) && decide (diffMs ≤ dayMs * 6)

/-- A valid proleptic-Gregorian calendar date with a four-digit year. -/
def validYmd (y m d : Nat) : Prop :=
  y ≤ 9999 ∧ 1 ≤ m ∧ m ≤ 12 ∧ 1 ≤ d ∧ d ≤ daysInMonth y m

instance (y m d : Nat) : Decidable (validYmd y m d) := by
  unfold validYmd; infer_instance

/-! ## Nutrition aggregator (`nutrition.ts` and the `POST /recipes` reduce) -/

structure Nutrition where
  kcal : ℚ
  protein : ℚ
  carbs : ℚ
  fat : ℚ
  deriving DecidableEq, Repr

def add (a b : Nutrition) : Nutrition :=
  ⟨a.kcal + b.kcal, a.protein + b.protein, a.carbs + b.carbs, a.fat + b.fat⟩

/-- JS `Math.round`: nearest integer, ties toward positive infinity. -/
def jsRound (x : ℚ) : Int := ⌊x + 1 / 2⌋

/-- `round1(n) = Math.round(n * 10) / 10`. -/
def round1 (n : ℚ) : ℚ := (jsRound (n * 10) : ℚ) / 10

def roundNutrition (n : Nutrition) : Nutrition :=
  ⟨round1 n.kcal, round1 n.protein, round1 n.carbs, round1 n.fat⟩

/-- Rounding to the nearest multiple of 0.1 with ties away from zero,
as the specification describes the aggregator's rounding. -/
def roundHalfAwayTenth (x : ℚ) : ℚ :=
  if 0 ≤ x then ((⌊x * 10 + 1 / 2⌋ : ℚ) / 10) else -((⌊-x * 10 + 1 / 2⌋ : ℚ) / 10)

def roundHalfAwayNutrition (n : Nutrition) : Nutrition :=
  ⟨roundHalfAwayTenth n.kcal, roundHalfAwayTenth n.protein,
    roundHalfAwayTenth n.carbs, roundHalfAwayTenth n.fat⟩

structure Ingredient where
  kcalPer100g : ℚ
  proteinPer100g : ℚ
  carbsPer100g : ℚ
  fatPer100g : ℚ
  deriving DecidableEq, Repr

structure RecipeItem where
  ingredient : Ingredient
  quantityG : ℚ
  deriving DecidableEq, Repr

/-- One item's contribution: each macro scaled by `quantityG / 100`. -/
def itemNutrition (it : RecipeItem) : Nutrition :=
  let factor := it.quantityG / 100
  ⟨it.ingredient.kcalPer100g * factor, it.ingredient.proteinPer100g * factor,
    it.ingredient.carbsPer100g * factor, it.ingredient.fatPer100g * factor⟩

/-- The `POST /recipes` totals reduce over the item list. -/
def recipeTotals (items : List RecipeItem) : Nutrition :=
  items.foldl (fun acc it => add acc (itemNutrition it)) ⟨0, 0, 0, 0⟩

def perServingOf (t : Nutrition) (servings : ℕ) : Nutrition :=
  ⟨t.kcal / servings, t.protein / servings, t.carbs / servings, t.fat / servings⟩

def itemOk (it : RecipeItem) : Prop :=
  0 ≤ it.ingredient.kcalPer100g ∧ 0 ≤ it.ingredient.proteinPer100g ∧
    0 ≤ it.ingredient.carbsPer100g ∧ 0 ≤ it.ingredient.fatPer100g ∧ 0 < it.quantityG

instance (it : RecipeItem) : Decidable (itemOk it) := by
  unfold itemOk; infer_instance

def nutritionNonneg (n : Nutrition) : Prop :=
  0 ≤ n.kcal ∧ 0 ≤ n.protein ∧ 0 ≤ n.carbs ∧ 0 ≤ n.fat

/-- The spec's §8 example recipe: 200 g of a 165 kcal/100 g ingredient. -/
def demoItems : List RecipeItem := [⟨⟨165, 31, 0, 4⟩, 200⟩]

/-! ## Meal-plan endpoints (`GET /meal-plans`, `PUT /meal-plans`)

Database rows are modelled as lists; the Prisma transaction is a pure state
transition returning the original state on every error path. -/

inductive MealSlot
  | breakfast
  | lunch
  | afternoon_snack
  | dinner
  deriving DecidableEq, Repr

def MealSlot.toStr : MealSlot → String
  | .breakfast => "breakfast"
  | .lunch => "lunch"
  | .afternoon_snack => "afternoon_snack"
  | .dinner => "dinner"

def slotSortOrder : List String := ["breakfast", "lunch", "afternoon_snack", "dinner"]

/-- `slotRank`: index in `slotSortOrder`, or its length for unknown slots. -/
def slotRank (slot : String) : Nat :=
  match slotSortOrder.indexOf? slot with
  | some idx => idx
  | none => slotSortOrder.length

structure RecipeRow where
  id : String
  userId : String
  name : String
  deriving DecidableEq, Repr

structure PlanRow where
  id : Nat
  userId : String
  weekStart : Int
  deriving DecidableEq, Repr

structure MealRow where
  planId : Nat
  date : Int
  slot : String
  recipeId : String
  deriving DecidableEq, Repr

structure DB where
  recipes : List RecipeRow
  plans : List PlanRow
  meals : List MealRow
  nextPlanId : Nat
  deriving DecidableEq, Repr

structure MealInput where
  date : String
  slot : MealSlot
  recipeId : String
  deriving DecidableEq, Repr

structure PutBody where
  weekStart : String
  meals : List MealInput
  deriving DecidableEq, Repr

structure MealView where
  date : String
  slot : String
  recipeId : String
  recipeName : String
  deriving DecidableEq, Repr

structure PlanView where
  id : Option Nat
  weekStart : String
  meals : List MealView
  deriving DecidableEq, Repr

structure ApiErr where
  status : Nat
  message : String
  deriving DecidableEq, Repr

/-- Code-point comparison of strings, as `localeCompare` behaves on ASCII
dates: negative, zero or positive. -/
def lexCompare : List Char → List Char → Int
  | [], [] => 0
  | [], _ :: _ => -1
  | _ :: _, [] => 1
  | a :: as, b :: bs =>
    if a.toNat < b.toNat then -1 else if b.toNat < a.toNat then 1 else lexCompare as bs

def strCompare (a b : String) : Int := lexCompare a.data b.data

/-- The meal output comparator: date string first, then `slotRank`. -/
def mealCompare (a b : MealView) : Int :=
  let dateCompare := strCompare a.date b.date
  if dateCompare ≠ 0 then dateCompare else (slotRank a.slot : Int) - (slotRank b.slot : Int)

def insertMeal (x : MealView) : List MealView → List MealView
  | [] => [x]
  | y :: ys => if mealCompare x y < 0 then x :: y :: ys else y :: insertMeal x ys

/-- `Array.prototype.sort` with `mealCompare` (a stable comparison sort). -/
def sortMeals : List MealView → List MealView
  | [] => []
  | x :: xs => insertMeal x (sortMeals xs)

/-- The output order: date ascending by string comparison, then slot rank. -/
def mealLE (a b : MealView) : Prop :=
  strCompare a.date b.date < 0 ∨
    (strCompare a.date b.date = 0 ∧ slotRank a.slot ≤ slotRank b.slot)

/-- The joined `recipe.name` (the foreign key always resolves in the store). -/
def lookupRecipeName (recipes : List RecipeRow) (rid : String) : String :=
  match recipes.find? (fun r => r.id == rid) with
  | some r => r.name
  | none => ""

def renderMeal (recipes : List RecipeRow) (m : MealRow) : MealView :=
  ⟨formatDateOnly m.date, m.slot, m.recipeId, lookupRecipeName recipes m.recipeId⟩

def mealsOfPlan (db : DB) (planId : Nat) : List MealRow :=
  db.meals.filter (fun m => m.planId == planId)

def findPlan (db : DB) (userId : String) (weekStart : Int) : Option PlanRow :=
  db.plans.find? (fun p => p.userId == userId && p.weekStart == weekStart)

/-- `GET /meal-plans` handler. -/
def getMealPlans (db : DB) (userId : String) (weekStartStr : String) :
    Except ApiErr PlanView :=
  match parseDateOnly weekStartStr with
  | none => .error ⟨400, "weekStart must be YYYY-MM-DD"⟩
  | some weekStart =>
    let plan? := findPlan db userId weekStart
    let rows := match plan? with
      | none => []
      | some p => mealsOfPlan db p.id
    .ok ⟨plan?.map (fun p => p.id), weekStartStr, sortMeals (rows.map (renderMeal db.recipes))⟩

structure ParsedMeal where
  date : Int
  slot : MealSlot
  recipeId : String
  deriving DecidableEq, Repr

/-- The `PUT /meal-plans` per-meal loop: parse each date, require it inside
the selected week, first failure wins. -/
def parsePutMeals (weekStart : Int) : List MealInput → Except ApiErr (List ParsedMeal)
  | [] => .ok []
  | meal :: rest =>
    match parseDateOnly meal.date with
    | none => .error ⟨400, "Meal date must be YYYY-MM-DD: " ++ meal.date⟩
    | some date =>
      if isWithinWeek date weekStart then
        match parsePutMeals weekStart rest with
        | .error e => .error e
        | .ok ms => .ok (⟨date, meal.slot, meal.recipeId⟩ :: ms)
      else .error ⟨400, "Meal date is outside selected week: " ++ meal.date⟩

def mealKey (m : ParsedMeal) : String := formatDateOnly m.date ++ ":" ++ m.slot.toStr

/-- The duplicate-slot scan with its `seen` set; returns the first meal whose
key was already seen. -/
def findDuplicateSlot (seen : List String) : List ParsedMeal → Option ParsedMeal
  | [] => none
  | m :: rest =>
    if seen.contains (mealKey m) then some m else findDuplicateSlot (mealKey m :: seen) rest

/-- `[...new Set(xs)]`: deduplication preserving first-seen order. -/
def dedupIds (l : List String) : List String :=
  l.foldl (fun acc x => if acc.contains x then acc else acc ++ [x]) []

/-- `PUT /meal-plans` handler: returns the possibly-updated store and the
response; every error path leaves the store untouched. -/
def putMealPlans (db : DB) (userId : String) (body : PutBody) :
    DB × Except ApiErr PlanView :=
  match parseDateOnly body.weekStart with
  | none => (db, .error ⟨400, "weekStart must be YYYY-MM-DD"⟩)
  | some weekStart =>
    match parsePutMeals weekStart body.meals with
    | .error e => (db, .error e)
    | .ok meals =>
      match findDuplicateSlot [] meals with
      | some m => (db, .error ⟨400, "Duplicate slot for date " ++ formatDateOnly m.date⟩)
      | none =>
        let recipeIds := dedupIds (meals.map (fun m => m.recipeId))
        let found := db.recipes.filter (fun r => r.userId == userId && recipeIds.contains r.id)
        if 0 < recipeIds.length ∧ found.length ≠ recipeIds.length then
          (db, .error ⟨400, "One or more recipes were not found for this user"⟩)
        else
          let existing := findPlan db userId weekStart
          let planId := match existing with
            | some p => p.id
            | none => db.nextPlanId
          let plans' := match existing with
            | some _ => db.plans
            | none => db.plans ++ [⟨db.nextPlanId, userId, weekStart⟩]
          let nextId' := match existing with
            | some _ => db.nextPlanId
            | none => db.nextPlanId + 1
          let newRows := meals.map (fun m => (⟨planId, m.date, m.slot.toStr, m.recipeId⟩ : MealRow))
          let db' : DB := ⟨db.recipes, plans', db.meals.filter (fun m => m.planId != planId) ++ newRows, nextId'⟩
          let savedMeals := sortMeals ((mealsOfPlan db' planId).map (renderMeal db'.recipes))
          (db', .ok ⟨some planId, formatDateOnly weekStart, savedMeals⟩)

/-! ## Admin role management (`PATCH /admin/users/:id/role`) -/

inductive Role
  | USER
  | ADMIN
  deriving DecidableEq, Repr

structure UserRow where
  id : String
  role : Role
  deriving DecidableEq, Repr

def adminCount (users : List UserRow) : Nat :=
  (users.filter (fun u => u.role == Role.ADMIN)).length

def setRole (users : List UserRow) (id : String) (role : Role) : List UserRow :=
  users.map (fun u => if u.id == id then { u with role := role } else u)

/-- `PATCH /admin/users/:id/role` handler (after the admin gate). -/
def patchUserRole (users : List UserRow) (id : String) (newRole : Role) :
    Except ApiErr (List UserRow) :=
  match users.find? (fun u => u.id == id) with
  | none => .error ⟨404, "User not found"⟩
  | some target =>
    if target.role = Role.ADMIN ∧ newRole = Role.USER ∧ adminCount users ≤ 1 then
      .error ⟨409, "Cannot remove admin role from the last admin"⟩
    else .ok (setRole users id newRole)

/-! ## Calendar lemmas -/

lemma isLeap_iff (y : Nat) : isLeap y = true ↔ (y % 4 = 0 ∧ y % 100 ≠ 0) ∨ y % 400 = 0 := by
  simp [isLeap]

lemma daysBeforeYear_succ (y : Nat) :
    daysBeforeYear (y + 1) = daysBeforeYear y + daysInYear y := by
  rw [daysInYear]
  by_cases h : isLeap y = true
  · rw [if_pos h]
    rw [isLeap_iff] at h
    unfold daysBeforeYear leapsBefore
    omega
  · rw [if_neg h]
    rw [Bool.not_eq_true, ← Bool.not_eq_true, isLeap_iff] at h
    unfold daysBeforeYear leapsBefore
    omega

lemma daysInYear_pos (y : Nat) : 365 ≤ daysInYear y := by
  unfold daysInYear; split <;> omega

lemma daysBeforeYear_mono {y z : Nat} (h : y ≤ z) : daysBeforeYear y ≤ daysBeforeYear z := by
  unfold daysBeforeYear leapsBefore
  omega

lemma daysBeforeYear_zero : daysBeforeYear 0 = 0 := rfl

lemma yearAux_exact (j : Nat) : ∀ (fuel y n k : Nat), j < fuel → k < daysInYear (y + j) →
    n + daysBeforeYear y = daysBeforeYear (y + j) + k → yearAux fuel y n = (y + j, k) := by
  induction j with
  | zero =>
    intro fuel y n k hfuel hk heq
    obtain ⟨f, rfl⟩ : ∃ f, fuel = f + 1 := ⟨fuel - 1, by omega⟩
    simp only [Nat.add_zero] at hk heq
    have hnk : n = k := by omega
    rw [yearAux, if_pos (by omega : n < daysInYear y)]
    simp [hnk]
  | succ j ih =>
    intro fuel y n k hfuel hk heq
    obtain ⟨f, rfl⟩ : ∃ f, fuel = f + 1 := ⟨fuel - 1, by omega⟩
    have hmono : daysBeforeYear (y + 1) ≤ daysBeforeYear (y + (j + 1)) :=
      daysBeforeYear_mono (by omega)
    have hsucc := daysBeforeYear_succ y
    have hge : daysInYear y ≤ n := by omega
    rw [yearAux, if_neg (by omega)]
    have := ih f (y + 1) (n - daysInYear y) k (by omega)
      (by rw [show y + 1 + j = y + (j + 1) by omega]; exact hk)
      (by rw [show y + 1 + j = y + (j + 1) by omega]; omega)
    rw [this]
    rw [Prod.mk.injEq]
    exact ⟨by omega, rfl⟩

lemma yearAux_surj : ∀ (fuel y n : Nat), n + daysBeforeYear y < daysBeforeYear (y + fuel) →
    ∃ j k, j < fuel ∧ k < daysInYear (y + j) ∧ n + daysBeforeYear y = daysBeforeYear (y + j) + k := by
  intro fuel
  induction fuel with
  | zero =>
    intro y n h
    simp only [Nat.add_zero] at h
    omega
  | succ f ih =>
    intro y n h
    by_cases hy : n < daysInYear y
    · exact ⟨0, n, by omega, by simpa using hy, by simp; omega⟩
    · have hsucc := daysBeforeYear_succ y
      obtain ⟨j, k, hj, hk, heq⟩ := ih (y + 1) (n - daysInYear y)
        (by rw [show y + 1 + f = y + (f + 1) by omega]; omega)
      exact ⟨j + 1, k, by omega,
        by rw [show y + (j + 1) = y + 1 + j by omega]; exact hk,
        by rw [show y + (j + 1) = y + 1 + j by omega]; omega⟩

lemma monthAux_exact : ∀ (ls : List Nat) (m i k : Nat), k < ls.getD i 0 →
    monthAux m ls ((ls.take i).sum + k) = (m + i, k + 1) := by
  intro ls
  induction ls with
  | nil => intro m i k hk; simp [List.getD] at hk
  | cons len rest ih =>
    intro m i k hk
    cases i with
    | zero =>
      simp only [List.getD_cons_zero] at hk
      rw [List.take_zero, List.sum_nil, Nat.zero_add, monthAux, if_pos hk]
      simp
    | succ i =>
      simp only [List.getD_cons_succ] at hk
      rw [List.take_succ_cons, List.sum_cons, monthAux, if_neg (by omega)]
      rw [show len + (List.take i rest).sum + k - len = (List.take i rest).sum + k by omega]
      rw [ih (m + 1) i k hk, Prod.mk.injEq]
      exact ⟨by omega, rfl⟩

lemma monthAux_surj : ∀ (ls : List Nat) (k : Nat), k < ls.sum →
    ∃ i r, r < ls.getD i 0 ∧ k = (ls.take i).sum + r := by
  intro ls
  induction ls with
  | nil => intro k hk; simp at hk
  | cons len rest ih =>
    intro k hk
    by_cases hlen : k < len
    · exact ⟨0, k, by simpa using hlen, by simp⟩
    · rw [List.sum_cons] at hk
      obtain ⟨i, r, hr, heq⟩ := ih (k - len) (by omega)
      exact ⟨i + 1, r, by simpa using hr, by simp [List.take_cons, List.sum_cons]; omega⟩

lemma monthDays_length (y : Nat) : (monthDays y).length = 12 := rfl

lemma monthDays_sum (y : Nat) : (monthDays y).sum = daysInYear y := by
  unfold monthDays daysInYear
  by_cases h : isLeap y = true <;> simp [h]

lemma getD_lt_of_lt_sum_take {ls : List Nat} {i r : Nat} (h : r < ls.getD i 0) :
    i < ls.length := by
  by_contra hc
  rw [List.getD_eq_default ls 0 (by omega)] at h
  omega

lemma sum_take_le (L : List Nat) (i : Nat) : (L.take i).sum ≤ L.sum := by
  conv_rhs => rw [← List.take_append_drop i L]
  rw [List.sum_append]
  omega

lemma sum_take_mono (l : List Nat) {i j : Nat} (h : i ≤ j) :
    (l.take i).sum ≤ (l.take j).sum := by
  rw [show l.take i = (l.take j).take i by rw [List.take_take, Nat.min_eq_left h]]
  exact sum_take_le _ _

lemma sum_take_succ_getD : ∀ (l : List Nat) (i : Nat), i < l.length →
    (l.take (i + 1)).sum = (l.take i).sum + l.getD i 0 := by
  intro l
  induction l with
  | nil => intro i h; simp at h
  | cons x xs ih =>
    intro i h
    cases i with
    | zero => simp
    | succ i =>
      simp only [List.take_succ_cons, List.sum_cons, List.getD_cons_succ]
      rw [ih i (by simpa using h)]
      omega

lemma monthDays_getD_le (y i : Nat) : (monthDays y).getD i 0 ≤ 31 := by
  by_cases h : i < 12
  · interval_cases i <;>
      simp only [monthDays, List.getD_cons_zero, List.getD_cons_succ] <;>
      first
        | omega
        | (split <;> omega)
  · rw [List.getD_eq_default _ _ (by rw [monthDays_length]; omega)]
    omega

lemma daysInMonth_le_31 (y m : Nat) : daysInMonth y m ≤ 31 :=
  monthDays_getD_le y (m - 1)

lemma dayOfYear_lt (y m d : Nat) (hm1 : 1 ≤ m) (hm2 : m ≤ 12) (hd1 : 1 ≤ d)
    (hd2 : d ≤ daysInMonth y m) : daysBeforeMonth y m + (d - 1) < daysInYear y := by
  have hlen : m - 1 < (monthDays y).length := by rw [monthDays_length]; omega
  have hs := sum_take_succ_getD (monthDays y) (m - 1) hlen
  rw [show m - 1 + 1 = m by omega] at hs
  have hle := sum_take_le (monthDays y) m
  have hsum := monthDays_sum y
  unfold daysBeforeMonth daysInMonth at *
  omega

lemma daysBeforeMonth_lt_year (y m : Nat) (hm1 : 1 ≤ m) (hm2 : m ≤ 12) (d : Nat)
    (hd1 : 1 ≤ d) (hd2 : d ≤ 31) : daysBeforeMonth y m + (d - 1) < daysInYear y := by
  have h12 : daysBeforeMonth y m ≤ daysBeforeMonth y 12 := by
    unfold daysBeforeMonth
    exact sum_take_mono _ (by omega)
  have hlen : (11 : Nat) < (monthDays y).length := by rw [monthDays_length]; omega
  have hs := sum_take_succ_getD (monthDays y) 11 hlen
  have htot : ((monthDays y).take 12).sum = (monthDays y).sum := by
    rw [List.take_of_length_le (by rw [monthDays_length])]
  have hsum := monthDays_sum y
  have hdec : (monthDays y).getD 11 0 = 31 := rfl
  unfold daysBeforeMonth at *
  rw [show (12 : Nat) - 1 = 11 from rfl] at h12
  rw [show (11 : Nat) + 1 = 12 from rfl] at hs
  omega

lemma fromDay_toDay (y m d : Nat) (h : validYmd y m d) : fromDay (toDay y m d) = (y, m, d) := by
  obtain ⟨hy, hm1, hm2, hd1, hd2⟩ := h
  have hk : daysBeforeMonth y m + (d - 1) < daysInYear y := dayOfYear_lt y m d hm1 hm2 hd1 hd2
  have hyear : yearAux 10000 0 (toDay y m d) = (y, daysBeforeMonth y m + (d - 1)) := by
    have h0 := yearAux_exact y 10000 0 (toDay y m d) (daysBeforeMonth y m + (d - 1))
      (by omega) (by simpa using hk)
      (by simp only [Nat.zero_add, daysBeforeYear_zero]; unfold toDay; omega)
    simpa using h0
  have hmonth : monthAux 1 (monthDays y) (daysBeforeMonth y m + (d - 1)) = (m, d) := by
    have h0 := monthAux_exact (monthDays y) 1 (m - 1) (d - 1)
      (by unfold daysInMonth at hd2; omega)
    rw [show (((monthDays y).take (m - 1)).sum) = daysBeforeMonth y m from rfl] at h0
    rw [h0, Prod.mk.injEq]
    exact ⟨by omega, by omega⟩
  unfold fromDay
  rw [hyear]
  simp only []
  rw [hmonth]

lemma fromDay_valid (n : Nat) (hn : n < daysBeforeYear 10000) :
    ∃ y m d, validYmd y m d ∧ fromDay n = (y, m, d) ∧ toDay y m d = n := by
  obtain ⟨j, k, hj, hk, heq⟩ := yearAux_surj 10000 0 n
    (by simpa [daysBeforeYear_zero] using hn)
  simp only [Nat.zero_add, daysBeforeYear_zero, Nat.add_zero] at hk heq
  obtain ⟨i, r, hr, hkeq⟩ := monthAux_surj (monthDays j) k (by rw [monthDays_sum]; exact hk)
  have hi : i < 12 := by
    have h0 := getD_lt_of_lt_sum_take hr
    rwa [monthDays_length] at h0
  have hyear : yearAux 10000 0 n = (j, k) := by
    have h0 := yearAux_exact j 10000 0 n k hj (by simpa using hk)
      (by simpa [daysBeforeYear_zero] using heq)
    simpa using h0
  have hmonth : monthAux 1 (monthDays j) k = (i + 1, r + 1) := by
    have h0 := monthAux_exact (monthDays j) 1 i r hr
    rw [← hkeq] at h0
    rw [h0, Prod.mk.injEq]
    exact ⟨by omega, rfl⟩
  refine ⟨j, i + 1, r + 1, ⟨by omega, by omega, by omega, by omega, ?_⟩, ?_, ?_⟩
  · unfold daysInMonth
    simp only [Nat.add_sub_cancel]
    omega
  · unfold fromDay
    rw [hyear]
    simp only []
    rw [hmonth]
  · unfold toDay daysBeforeMonth
    simp only [Nat.add_sub_cancel]
    omega

lemma digitChar_toNat (n : Nat) : (digitChar n).toNat = 48 + n % 10 := by
  have h : n % 10 < 10 := Nat.mod_lt _ (by norm_num)
  unfold digitChar
  generalize n % 10 = k at *
  interval_cases k <;> decide

lemma digitChar_isDigit (n : Nat) : isDigitChar (digitChar n) = true := by
  have h : n % 10 < 10 := Nat.mod_lt _ (by norm_num)
  unfold isDigitChar
  rw [digitChar_toNat]
  simp only [Bool.and_eq_true, decide_eq_true_eq]
  omega

lemma digitVal_digitChar (n : Nat) : digitVal (digitChar n) = n % 10 := by
  unfold digitVal
  rw [digitChar_toNat]
  omega

lemma digitVal_le_of_isDigit {c : Char} (h : isDigitChar c = true) :
    48 ≤ c.toNat ∧ digitVal c ≤ 9 := by
  unfold isDigitChar at h
  simp only [Bool.and_eq_true, decide_eq_true_eq] at h
  unfold digitVal
  omega

lemma dayOfDate_msOfDay (n : Nat) : dayOfDate (msOfDay n) = n := by
  unfold dayOfDate msOfDay dayMs epochDayNumber
  omega

lemma formatDateOnly_toDate (y m d : Nat) (h : validYmd y m d) :
    formatDateOnly (toDate y m d) = dateString y m d := by
  unfold formatDateOnly toDate
  rw [dayOfDate_msOfDay, fromDay_toDay y m d h]

lemma dateString_data (y m d : Nat) :
    (dateString y m d).data =
      [digitChar (y / 1000), digitChar (y / 100), digitChar (y / 10), digitChar y, '-',
        digitChar (m / 10), digitChar m, '-', digitChar (d / 10), digitChar d] := by
  simp [dateString, pad4, pad2]

/-- Parsing a rendered valid date succeeds and returns its UTC-midnight
instant (the round-trip guard passes). -/
lemma parseDateOnly_dateString (y m d : Nat) (h : validYmd y m d) :
    parseDateOnly (dateString y m d) = some (toDate y m d) := by
  obtain ⟨hy, hm1, hm2, hd1, hd2⟩ := h
  have hd31 : d ≤ 31 := hd2.trans (daysInMonth_le_31 y m)
  rw [parseDateOnly, dateString_data]
  simp only [digitChar_isDigit, Bool.true_and, Bool.and_self, beq_self_eq_true, if_true,
    digitVal_digitChar]
  rw [show y / 1000 % 10 * 1000 + y / 100 % 10 * 100 + y / 10 % 10 * 10 + y % 10 = y by omega]
  rw [show m / 10 % 10 * 10 + m % 10 = m by omega]
  rw [show d / 10 % 10 * 10 + d % 10 = d by omega]
  rw [jsUtcDate, if_pos ⟨hm1, hm2, hd1, hd31⟩]
  simp [formatDateOnly_toDate y m d ⟨hy, hm1, hm2, hd1, hd2⟩]

lemma toDay_lt_total {y m d : Nat} (hy : y ≤ 9999) (hm1 : 1 ≤ m) (hm2 : m ≤ 12)
    (hd1 : 1 ≤ d) (hd2 : d ≤ 31) : toDay y m d < daysBeforeYear 10000 := by
  have h1 := daysBeforeMonth_lt_year y m hm1 hm2 d hd1 hd2
  have h2 := daysBeforeYear_succ y
  have h3 := daysBeforeYear_mono (show y + 1 ≤ 10000 by omega)
  unfold toDay
  omega

/-- Any successful parse is the render of a valid calendar date (so every
string that is malformed or names a non-existent date is rejected). -/
lemma parseDateOnly_some {s : String} {t : Int} (h : parseDateOnly s = some t) :
    ∃ y m d, validYmd y m d ∧ s = dateString y m d ∧ t = toDate y m d := by
  rw [parseDateOnly] at h
  split at h
  case h_2 => exact absurd h (by simp)
  case h_1 c1 c2 c3 c4 h1 c5 c6 h2 c7 c8 hdata =>
    split at h
    case isFalse => exact absurd h (by simp)
    case isTrue hdigits =>
      simp only [Bool.and_eq_true, beq_iff_eq] at hdigits
      obtain ⟨⟨⟨⟨⟨⟨⟨⟨⟨hc1, hc2⟩, hc3⟩, hc4⟩, hh1⟩, hc5⟩, hc6⟩, hh2⟩, hc7⟩, hc8⟩ := hdigits
      simp only [] at h
      split at h
      case h_1 => exact absurd h (by simp)
      case h_2 t' hjs =>
        rw [jsUtcDate] at hjs
        split at hjs
        case isFalse => exact absurd hjs (by simp)
        case isTrue hb =>
          obtain ⟨hm1, hm2, hd1, hd2⟩ := hb
          split at h
          case isFalse => exact absurd h (by simp)
          case isTrue hguard =>
            simp only [Option.some.injEq] at h hjs
            have hy : digitVal c1 * 1000 + digitVal c2 * 100 + digitVal c3 * 10 +
                digitVal c4 ≤ 9999 := by
              have b1 := (digitVal_le_of_isDigit hc1).2
              have b2 := (digitVal_le_of_isDigit hc2).2
              have b3 := (digitVal_le_of_isDigit hc3).2
              have b4 := (digitVal_le_of_isDigit hc4).2
              omega
            have htot := toDay_lt_total hy hm1 hm2 hd1 hd2
            obtain ⟨y2, m2, d2, hvalid, hfrom, htd⟩ := fromDay_valid _ htot
            have hfmt : formatDateOnly t' = dateString y2 m2 d2 := by
              rw [← hjs]
              unfold formatDateOnly toDate
              rw [dayOfDate_msOfDay, hfrom]
            refine ⟨y2, m2, d2, hvalid, ?_, ?_⟩
            · rw [← eq_of_beq hguard, hfmt]
            · rw [← h, ← hjs]
              unfold toDate
              rw [htd]

/-- C5: `formatDateOnly (parseDateOnly s) = s` for every valid `YYYY-MM-DD`
calendar date string; `parseDateOnly` fails on every string that does not
match the pattern or names a non-existent date, including `2024-13-01`,
`2024-02-30` and `20240101`; the semantic rejection works by rendering the
constructed date back and requiring equality with the input (for `2024-02-30`
the construction itself succeeds, yielding `2024-03-01`). -/
theorem parseDateOnly_formatDateOnly_roundtrip :
    (∀ y m d, validYmd y m d →
        parseDateOnly (dateString y m d) = some (toDate y m d) ∧
        formatDateOnly (toDate y m d) = dateString y m d) ∧
    (∀ s t, parseDateOnly s = some t →
        ∃ y m d, validYmd y m d ∧ s = dateString y m d ∧ t = toDate y m d) ∧
    parseDateOnly "2024-13-01" = none ∧
    parseDateOnly "2024-02-30" = none ∧
    parseDateOnly "20240101" = none ∧
    jsUtcDate 2024 2 30 = some (toDate 2024 2 30) ∧
    formatDateOnly (toDate 2024 2 30) = "2024-03-01" :=
  ⟨fun y m d h => ⟨parseDateOnly_dateString y m d h, formatDateOnly_toDate y m d h⟩,
    fun _ _ h => parseDateOnly_some h,
    by decide, by decide, by decide, by decide, by decide⟩

theorem parseDateOnly_formatDateOnly_roundtrip_witness :
    parseDateOnly (dateString 2024 6 15) = some (toDate 2024 6 15) ∧
    formatDateOnly (toDate 2024 6 15) = dateString 2024 6 15 :=
  parseDateOnly_formatDateOnly_roundtrip.1 2024 6 15 (by decide)

/-! ## Output ordering lemmas -/

lemma char_eq_of_toNat_eq {a b : Char} (h : a.toNat = b.toNat) : a = b := by
  rw [← Char.ofNat_toNat a, ← Char.ofNat_toNat b, h]

lemma lexCompare_eq_zero_iff : ∀ as bs : List Char, lexCompare as bs = 0 ↔ as = bs := by
  intro as
  induction as with
  | nil => intro bs; cases bs <;> simp [lexCompare]
  | cons a as ih =>
    intro bs
    cases bs with
    | nil => simp [lexCompare]
    | cons b bs =>
      rw [lexCompare]
      split_ifs with h1 h2
      · simp only [List.cons.injEq]
        constructor
        · intro h; norm_num at h
        · rintro ⟨rfl, _⟩; omega
      · simp only [List.cons.injEq]
        constructor
        · intro h; norm_num at h
        · rintro ⟨rfl, _⟩; omega
      · have hab : a = b := char_eq_of_toNat_eq (by omega)
        simp [ih bs, hab]

lemma lexCompare_swap : ∀ as bs : List Char, lexCompare bs as = -lexCompare as bs := by
  intro as
  induction as with
  | nil => intro bs; cases bs <;> simp [lexCompare]
  | cons a as ih =>
    intro bs
    cases bs with
    | nil => simp [lexCompare]
    | cons b bs =>
      rw [lexCompare, lexCompare]
      rcases Nat.lt_trichotomy a.toNat b.toNat with h | h | h
      · rw [if_pos h, if_neg (by omega), if_pos h]
        norm_num
      · rw [if_neg (by omega), if_neg (by omega), if_neg (by omega), if_neg (by omega)]
        exact ih bs
      · rw [if_pos h, if_neg (by omega), if_pos h]

lemma lexCompare_neg_trans : ∀ as bs cs : List Char,
    lexCompare as bs < 0 → lexCompare bs cs < 0 → lexCompare as cs < 0 := by
  intro as
  induction as with
  | nil =>
    intro bs cs h1 h2
    cases bs with
    | nil => simp [lexCompare] at h1
    | cons b bs =>
      cases cs with
      | nil => rw [lexCompare] at h2; norm_num at h2
      | cons c cs => rw [lexCompare]; norm_num
  | cons a as ih =>
    intro bs cs h1 h2
    cases bs with
    | nil => rw [lexCompare] at h1; norm_num at h1
    | cons b bs =>
      cases cs with
      | nil => rw [lexCompare] at h2; norm_num at h2
      | cons c cs =>
        rw [lexCompare] at h1 h2 ⊢
        rcases Nat.lt_trichotomy a.toNat b.toNat with hab | hab | hab
        · rcases Nat.lt_trichotomy b.toNat c.toNat with hbc | hbc | hbc
          · rw [if_pos (by omega)]; norm_num
          · rw [if_pos (by omega)]; norm_num
          · rw [if_neg (by omega), if_pos hbc] at h2; norm_num at h2
        · rcases Nat.lt_trichotomy b.toNat c.toNat with hbc | hbc | hbc
          · rw [if_pos (by omega)]; norm_num
          · rw [if_neg (by omega), if_neg (by omega)] at h1 h2 ⊢
            exact ih bs cs h1 h2
          · rw [if_neg (by omega), if_pos hbc] at h2; norm_num at h2
        · rw [if_neg (by omega), if_pos hab] at h1; norm_num at h1

lemma strCompare_swap (a b : String) : strCompare b a = -strCompare a b :=
  lexCompare_swap a.data b.data

lemma strCompare_eq_zero_iff (a b : String) : strCompare a b = 0 ↔ a = b := by
  unfold strCompare
  rw [lexCompare_eq_zero_iff]
  constructor
  · intro h
    cases a; cases b; exact congrArg String.mk h
  · intro h; rw [h]

lemma mealLE_of_compare_neg {x y : MealView} (h : mealCompare x y < 0) : mealLE x y := by
  unfold mealCompare at h
  by_cases hd : strCompare x.date y.date ≠ 0
  · rw [if_pos hd] at h
    exact Or.inl h
  · rw [if_neg hd] at h
    push_neg at hd
    exact Or.inr ⟨hd, by omega⟩

lemma mealLE_of_not_compare_neg {x y : MealView} (h : ¬ mealCompare x y < 0) : mealLE y x := by
  unfold mealCompare at h
  have hswap := strCompare_swap x.date y.date
  by_cases hd : strCompare x.date y.date ≠ 0
  · rw [if_pos hd] at h
    exact Or.inl (by omega)
  · rw [if_neg hd] at h
    push_neg at hd
    exact Or.inr ⟨by omega, by omega⟩

lemma mealLE_trans {a b c : MealView} (h1 : mealLE a b) (h2 : mealLE b c) : mealLE a c := by
  unfold mealLE at *
  rcases h1 with h1 | ⟨h1, h1s⟩ <;> rcases h2 with h2 | ⟨h2, h2s⟩
  · exact Or.inl (lexCompare_neg_trans _ _ _ h1 h2)
  · have e : b.date = c.date := (strCompare_eq_zero_iff _ _).1 h2
    exact Or.inl (by rw [← e]; exact h1)
  · have e : a.date = b.date := (strCompare_eq_zero_iff _ _).1 h1
    exact Or.inl (by rw [e]; exact h2)
  · have e : a.date = b.date := (strCompare_eq_zero_iff _ _).1 h1
    exact Or.inr ⟨by rw [e]; exact h2, le_trans h1s h2s⟩

lemma mem_insertMeal {x z : MealView} : ∀ {l : List MealView},
    z ∈ insertMeal x l → z = x ∨ z ∈ l := by
  intro l
  induction l with
  | nil => intro h; rw [insertMeal] at h; simpa using h
  | cons y ys ih =>
    intro h
    rw [insertMeal] at h
    by_cases hc : mealCompare x y < 0
    · rw [if_pos hc] at h
      rcases List.mem_cons.mp h with rfl | h
      · exact Or.inl rfl
      · exact Or.inr h
    · rw [if_neg hc] at h
      rcases List.mem_cons.mp h with rfl | h
      · exact Or.inr (List.mem_cons_self _ _)
      · rcases ih h with rfl | h
        · exact Or.inl rfl
        · exact Or.inr (List.mem_cons_of_mem _ h)

lemma pairwise_insertMeal {x : MealView} : ∀ {l : List MealView},
    l.Pairwise mealLE → (insertMeal x l).Pairwise mealLE := by
  intro l
  induction l with
  | nil => intro _; rw [insertMeal]; simp
  | cons y ys ih =>
    intro h
    rw [List.pairwise_cons] at h
    obtain ⟨hy, hys⟩ := h
    rw [insertMeal]
    by_cases hc : mealCompare x y < 0
    · rw [if_pos hc, List.pairwise_cons]
      refine ⟨?_, List.pairwise_cons.mpr ⟨hy, hys⟩⟩
      intro z hz
      rcases List.mem_cons.mp hz with rfl | hz
      · exact mealLE_of_compare_neg hc
      · exact mealLE_trans (mealLE_of_compare_neg hc) (hy z hz)
    · rw [if_neg hc, List.pairwise_cons]
      refine ⟨?_, ih hys⟩
      intro z hz
      rcases mem_insertMeal hz with rfl | hz
      · exact mealLE_of_not_compare_neg hc
      · exact hy z hz

lemma pairwise_sortMeals : ∀ l : List MealView, (sortMeals l).Pairwise mealLE := by
  intro l
  induction l with
  | nil => rw [sortMeals]; simp
  | cons x xs ih => rw [sortMeals]; exact pairwise_insertMeal ih

lemma digitChar_congr {a b : Nat} (h : a % 10 = b % 10) : digitChar a = digitChar b := by
  unfold digitChar; rw [h]

lemma lexCompare_pad2 (x y : Nat) (hx : x < 100) (hy : y < 100) (r s : List Char) :
    lexCompare (pad2 x ++ r) (pad2 y ++ s) =
      if x < y then -1 else if y < x then 1 else lexCompare r s := by
  unfold pad2
  simp only [List.cons_append, List.nil_append]
  rw [lexCompare]
  rw [lexCompare]
  simp only [digitChar_toNat]
  split_ifs <;> first | rfl | omega

lemma pad4_eq_append (y : Nat) : pad4 y = pad2 (y / 100) ++ pad2 (y % 100) := by
  unfold pad4 pad2
  simp only [List.cons_append, List.nil_append]
  rw [show digitChar (y / 100 / 10) = digitChar (y / 1000) from digitChar_congr (by omega)]
  rw [show digitChar (y % 100 / 10) = digitChar (y / 10) from digitChar_congr (by omega)]
  rw [show digitChar (y % 100) = digitChar y from digitChar_congr (by omega)]

lemma lexCompare_pad4 (x y : Nat) (hx : x < 10000) (hy : y < 10000) (r s : List Char) :
    lexCompare (pad4 x ++ r) (pad4 y ++ s) =
      if x < y then -1 else if y < x then 1 else lexCompare r s := by
  rw [pad4_eq_append, pad4_eq_append, List.append_assoc, List.append_assoc]
  rw [lexCompare_pad2 _ _ (by omega) (by omega)]
  rw [lexCompare_pad2 _ _ (by omega) (by omega)]
  split_ifs <;> first | rfl | omega

lemma toDay_lt_mono {y1 m1 d1 y2 m2 d2 : Nat} (hv1 : validYmd y1 m1 d1)
    (hv2 : validYmd y2 m2 d2)
    (h : y1 < y2 ∨ (y1 = y2 ∧ (m1 < m2 ∨ (m1 = m2 ∧ d1 < d2)))) :
    toDay y1 m1 d1 < toDay y2 m2 d2 := by
  obtain ⟨hy1, hm11, hm12, hd11, hd12⟩ := hv1
  obtain ⟨hy2, hm21, hm22, hd21, hd22⟩ := hv2
  rcases h with h | ⟨rfl, h⟩
  · have hin := dayOfYear_lt y1 m1 d1 hm11 hm12 hd11 hd12
    have hsucc := daysBeforeYear_succ y1
    have hmono := daysBeforeYear_mono (show y1 + 1 ≤ y2 by omega)
    unfold toDay
    omega
  · rcases h with h | ⟨rfl, h⟩
    · have hlen : m1 - 1 < (monthDays y1).length := by rw [monthDays_length]; omega
      have hs := sum_take_succ_getD (monthDays y1) (m1 - 1) hlen
      rw [show m1 - 1 + 1 = m1 by omega] at hs
      have hmono := sum_take_mono (monthDays y1) (show m1 ≤ m2 - 1 by omega)
      unfold toDay daysBeforeMonth daysInMonth at *
      omega
    · unfold toDay
      omega

lemma strCompare_dateString_lt_iff {y1 m1 d1 y2 m2 d2 : Nat} (hv1 : validYmd y1 m1 d1)
    (hv2 : validYmd y2 m2 d2) :
    (strCompare (dateString y1 m1 d1) (dateString y2 m2 d2) < 0 ↔
      toDay y1 m1 d1 < toDay y2 m2 d2) := by
  obtain ⟨hy1, hm11, hm12, hd11, hd12⟩ := hv1
  obtain ⟨hy2, hm21, hm22, hd21, hd22⟩ := hv2
  have hd31 : d1 ≤ 31 := hd12.trans (daysInMonth_le_31 y1 m1)
  have hd32 : d2 ≤ 31 := hd22.trans (daysInMonth_le_31 y2 m2)
  have hcmp : strCompare (dateString y1 m1 d1) (dateString y2 m2 d2) =
      if y1 < y2 then -1 else if y2 < y1 then 1
      else if m1 < m2 then -1 else if m2 < m1 then 1
      else if d1 < d2 then -1 else if d2 < d1 then 1 else 0 := by
    show lexCompare (pad4 y1 ++ '-' :: (pad2 m1 ++ '-' :: pad2 d1))
        (pad4 y2 ++ '-' :: (pad2 m2 ++ '-' :: pad2 d2)) = _
    rw [lexCompare_pad4 _ _ (by omega) (by omega)]
    rw [lexCompare, if_neg (lt_irrefl _), if_neg (lt_irrefl _)]
    rw [lexCompare_pad2 _ _ (by omega) (by omega)]
    rw [lexCompare, if_neg (lt_irrefl _), if_neg (lt_irrefl _)]
    rw [← List.append_nil (pad2 d1), ← List.append_nil (pad2 d2)]
    rw [lexCompare_pad2 _ _ (by omega) (by omega)]
    rw [lexCompare]
  rw [hcmp]
  have hv1 : validYmd y1 m1 d1 := ⟨hy1, hm11, hm12, hd11, hd12⟩
  have hv2 : validYmd y2 m2 d2 := ⟨hy2, hm21, hm22, hd21, hd22⟩
  split_ifs with h1 h2 h3 h4 h5 h6
  · exact iff_of_true (by norm_num) (toDay_lt_mono hv1 hv2 (Or.inl h1))
  · exact iff_of_false (by norm_num)
      (by have := toDay_lt_mono hv2 hv1 (Or.inl h2); omega)
  · exact iff_of_true (by norm_num)
      (toDay_lt_mono hv1 hv2 (Or.inr ⟨by omega, Or.inl h3⟩))
  · exact iff_of_false (by norm_num)
      (by have := toDay_lt_mono hv2 hv1 (Or.inr ⟨by omega, Or.inl h4⟩); omega)
  · exact iff_of_true (by norm_num)
      (toDay_lt_mono hv1 hv2 (Or.inr ⟨by omega, Or.inr ⟨by omega, h5⟩⟩))
  · exact iff_of_false (by norm_num)
      (by have := toDay_lt_mono hv2 hv1 (Or.inr ⟨by omega, Or.inr ⟨by omega, h6⟩⟩); omega)
  · have hde : toDay y1 m1 d1 = toDay y2 m2 d2 := by
      have e1 : y1 = y2 := by omega
      have e2 : m1 = m2 := by omega
      have e3 : d1 = d2 := by omega
      rw [e1, e2, e3]
    exact iff_of_false (by norm_num) (by omega)

/-- C4: every plan returned by `GET` or `PUT /meal-plans` has its meals sorted
by date ascending under string comparison — which coincides with chronological
order on zero-padded ISO dates — then by slot rank in the fixed order
breakfast < lunch < afternoon_snack < dinner, unrecognized slots last. -/
theorem meal_plan_output_sorted :
    (∀ db u ws r, getMealPlans db u ws = .ok r → r.meals.Pairwise mealLE) ∧
    (∀ db u body db' r, putMealPlans db u body = (db', .ok r) → r.meals.Pairwise mealLE) ∧
    (slotRank "breakfast" = 0 ∧ slotRank "lunch" = 1 ∧ slotRank "afternoon_snack" = 2 ∧
      slotRank "dinner" = 3) ∧
    (∀ s, s ∉ slotSortOrder → slotRank s = 4) ∧
    (∀ y1 m1 d1 y2 m2 d2, validYmd y1 m1 d1 → validYmd y2 m2 d2 →
      (strCompare (dateString y1 m1 d1) (dateString y2 m2 d2) < 0 ↔
        toDay y1 m1 d1 < toDay y2 m2 d2)) := by
  refine ⟨?_, ?_, ⟨by decide, by decide, by decide, by decide⟩, ?_, ?_⟩
  · intro db u ws r h
    rw [getMealPlans] at h
    split at h
    · exact absurd h (by simp)
    · simp only [Except.ok.injEq] at h
      rw [← h]
      exact pairwise_sortMeals _
  · intro db u body db' r h
    rw [putMealPlans] at h
    split at h
    · exact absurd h (by simp)
    · split at h
      · exact absurd h (by simp)
      · split at h
        · exact absurd h (by simp)
        · simp only [] at h
          split at h
          · exact absurd h (by simp)
          · simp only [Prod.mk.injEq, Except.ok.injEq] at h
            rw [← h.2]
            exact pairwise_sortMeals _
  · intro s hs
    have hnone : slotSortOrder.indexOf? s = none :=
      List.indexOf?_eq_none_iff.mpr (fun x hx => by
        simp only [beq_iff_eq]
        rintro rfl
        exact hs hx)
    unfold slotRank
    rw [hnone]
    rfl
  · intro y1 m1 d1 y2 m2 d2 hv1 hv2
    exact strCompare_dateString_lt_iff hv1 hv2

theorem meal_plan_output_sorted_witness :
    (PlanView.mk none "2024-01-01" []).meals.Pairwise mealLE ∧
    (strCompare (dateString 2024 1 9) (dateString 2024 1 10) < 0 ↔
      toDay 2024 1 9 < toDay 2024 1 10) :=
  ⟨meal_plan_output_sorted.1 ⟨[], [], [], 0⟩ "u1" "2024-01-01" ⟨none, "2024-01-01", []⟩
      (by rfl),
    meal_plan_output_sorted.2.2.2.2 2024 1 9 2024 1 10 (by decide) (by decide)⟩

/-! ## Admin role lemmas -/

lemma role_eq_user_of_ne_admin {r : Role} (h : r ≠ Role.ADMIN) : r = Role.USER := by
  cases r
  · rfl
  · exact absurd rfl h

lemma adminCount_cons (u : UserRow) (us : List UserRow) :
    adminCount (u :: us) = (if u.role = Role.ADMIN then 1 else 0) + adminCount us := by
  by_cases h : u.role = Role.ADMIN
  · simp [adminCount, List.filter_cons, h, Nat.add_comm]
  · simp [adminCount, List.filter_cons, h]

lemma adminCount_setRole (users : List UserRow) (id : String) (r : Role) (target : UserRow)
    (hnodup : (users.map (fun u => u.id)).Nodup)
    (hfind : users.find? (fun u => u.id == id) = some target) :
    adminCount (setRole users id r) + (if target.role = Role.ADMIN then 1 else 0) =
      adminCount users + (if r = Role.ADMIN then 1 else 0) := by
  induction users with
  | nil => simp [List.find?] at hfind
  | cons u us ih =>
    rw [List.map_cons, List.nodup_cons] at hnodup
    obtain ⟨hnotin, hnodup⟩ := hnodup
    by_cases hu : (u.id == id) = true
    · rw [List.find?_cons_of_pos (p := fun v : UserRow => v.id == id) _ hu] at hfind
      injection hfind with htarget
      subst htarget
      have hid : u.id = id := by simpa using hu
      have htail : us.map (fun v => if v.id == id then { v with role := r } else v) = us := by
        rw [List.map_congr_left (g := fun v => v), List.map_id']
        intro v hv
        refine if_neg ?_
        simp only [beq_iff_eq]
        intro e
        exact hnotin (by rw [hid, ← e]; exact List.mem_map_of_mem _ hv)
      unfold setRole
      rw [List.map_cons, if_pos hu, htail, adminCount_cons, adminCount_cons]
      simp only []
      omega
    · rw [List.find?_cons_of_neg (p := fun v : UserRow => v.id == id) _ hu] at hfind
      have hstep := ih hnodup hfind
      unfold setRole at *
      rw [List.map_cons, if_neg hu, adminCount_cons, adminCount_cons]
      omega

/-- C9: once an ADMIN exists, role changes preserve "at least one ADMIN":
demoting an ADMIN while the admin count is at most one is rejected with 409,
while demotions leaving another admin, and all promotions, succeed. -/
theorem admin_invariant_preserved (users : List UserRow) (id : String) (newRole : Role)
    (hnodup : (users.map (fun u => u.id)).Nodup) (hadmin : 1 ≤ adminCount users) :
    (∀ users', patchUserRole users id newRole = .ok users' → 1 ≤ adminCount users') ∧
    (∀ target, users.find? (fun u => u.id == id) = some target →
      target.role = Role.ADMIN → newRole = Role.USER → adminCount users ≤ 1 →
      patchUserRole users id newRole =
        .error ⟨409, "Cannot remove admin role from the last admin"⟩) ∧
    (∀ target, users.find? (fun u => u.id == id) = some target →
      (newRole = Role.ADMIN ∨ target.role = Role.USER ∨ 2 ≤ adminCount users) →
      ∃ users', patchUserRole users id newRole = .ok users') := by
  refine ⟨?_, ?_, ?_⟩
  · intro users' h
    rw [patchUserRole] at h
    split at h
    · exact absurd h (by simp)
    case h_2 target hfind =>
      split at h
      · exact absurd h (by simp)
      case isFalse hcond =>
        simp only [Except.ok.injEq] at h
        rw [← h]
        have hcount := adminCount_setRole users id newRole target hnodup hfind
        by_cases ht : target.role = Role.ADMIN <;> by_cases hn : newRole = Role.ADMIN
        · rw [if_pos ht, if_pos hn] at hcount
          omega
        · have hn' : newRole = Role.USER := role_eq_user_of_ne_admin hn
          have h2 : ¬ adminCount users ≤ 1 := fun hle => hcond ⟨ht, hn', hle⟩
          rw [if_pos ht, if_neg hn] at hcount
          omega
        · rw [if_neg ht, if_pos hn] at hcount
          omega
        · rw [if_neg ht, if_neg hn] at hcount
          omega
  · intro target hfind ht hn hle
    rw [patchUserRole, hfind]
    simp only []
    rw [if_pos ⟨ht, hn, hle⟩]
  · intro target hfind hcase
    rw [patchUserRole, hfind]
    simp only []
    by_cases hc : target.role = Role.ADMIN ∧ newRole = Role.USER ∧ adminCount users ≤ 1
    · exfalso
      obtain ⟨h1, h2, h3⟩ := hc
      rcases hcase with hcase | hcase | hcase
      · rw [hcase] at h2; exact Role.noConfusion h2
      · rw [hcase] at h1; exact Role.noConfusion h1
      · omega
    · rw [if_neg hc]
      exact ⟨_, rfl⟩

theorem admin_invariant_preserved_witness :
    1 ≤ adminCount (setRole [⟨"a", Role.ADMIN⟩, ⟨"b", Role.ADMIN⟩] "a" Role.USER) :=
  (admin_invariant_preserved [⟨"a", Role.ADMIN⟩, ⟨"b", Role.ADMIN⟩] "a" Role.USER
    (by decide) (by decide)).1 _ (by rfl)

/-! ## PUT /meal-plans lemmas -/

lemma parseDateOnly_format {s : String} {t : Int} (h : parseDateOnly s = some t) :
    formatDateOnly t = s := by
  obtain ⟨y, m, d, hv, rfl, rfl⟩ := parseDateOnly_some h
  exact formatDateOnly_toDate y m d hv

lemma parsePutMeals_ok (weekStart : Int) : ∀ (ms : List MealInput) (ps : List ParsedMeal),
    parsePutMeals weekStart ms = .ok ps →
    ps.map (fun p => (⟨formatDateOnly p.date, p.slot, p.recipeId⟩ : MealInput)) = ms ∧
    ∀ p ∈ ps, parseDateOnly (formatDateOnly p.date) = some p.date ∧
      isWithinWeek p.date weekStart = true := by
  intro ms
  induction ms with
  | nil =>
    intro ps h
    rw [parsePutMeals] at h
    simp only [Except.ok.injEq] at h
    subst h
    simp
  | cons m rest ih =>
    intro ps h
    rw [parsePutMeals] at h
    cases hp : parseDateOnly m.date with
    | none => rw [hp] at h; exact absurd h (by simp)
    | some date =>
      rw [hp] at h
      simp only [] at h
      split at h
      case isFalse => exact absurd h (by simp)
      case isTrue hw =>
        cases hr : parsePutMeals weekStart rest with
        | error e => rw [hr] at h; exact absurd h (by simp)
        | ok ms' =>
          rw [hr] at h
          simp only [Except.ok.injEq] at h
          subst h
          obtain ⟨hmap, hall⟩ := ih _ hr
          refine ⟨?_, ?_⟩
          · rw [List.map_cons, hmap, parseDateOnly_format hp]
          · intro p hp'
            rcases List.mem_cons.mp hp' with rfl | hp'
            · exact ⟨by rw [parseDateOnly_format hp]; exact hp, hw⟩
            · exact hall p hp'

lemma find?_append_of_none {α : Type} (p : α → Bool) {l1 : List α} (l2 : List α)
    (h : l1.find? p = none) : (l1 ++ l2).find? p = l2.find? p := by
  induction l1 with
  | nil => simp
  | cons a as ih =>
    by_cases ha : p a = true
    · rw [List.find?_cons_of_pos _ ha] at h
      exact absurd h (by simp)
    · rw [List.find?_cons_of_neg _ (by simpa using ha)] at h
      rw [List.cons_append, List.find?_cons_of_neg _ (by simpa using ha)]
      exact ih h

lemma dedupIds_aux (l : List String) : ∀ acc : List String, acc.Nodup →
    (l.foldl (fun acc x => if acc.contains x then acc else acc ++ [x]) acc).Nodup ∧
    ∀ x, x ∈ l.foldl (fun acc x => if acc.contains x then acc else acc ++ [x]) acc ↔
      x ∈ acc ∨ x ∈ l := by
  induction l with
  | nil =>
    intro acc hacc
    exact ⟨hacc, fun x => by simp⟩
  | cons a rest ih =>
    intro acc hacc
    rw [List.foldl_cons]
    by_cases h : acc.contains a
    · rw [if_pos h]
      have hmem : a ∈ acc := by simpa using h
      obtain ⟨hnd, hiff⟩ := ih acc hacc
      refine ⟨hnd, fun x => ?_⟩
      rw [hiff x]
      constructor
      · rintro (hx | hx)
        · exact Or.inl hx
        · exact Or.inr (List.mem_cons_of_mem _ hx)
      · rintro (hx | hx)
        · exact Or.inl hx
        · rcases List.mem_cons.mp hx with rfl | hx
          · exact Or.inl hmem
          · exact Or.inr hx
    · rw [if_neg h]
      have hnotmem : a ∉ acc := by simpa using h
      obtain ⟨hnd, hiff⟩ := ih (acc ++ [a])
        (by simp [List.nodup_append, hacc, hnotmem])
      refine ⟨hnd, fun x => ?_⟩
      rw [hiff x]
      simp only [List.mem_append, List.mem_singleton, List.mem_cons]
      tauto

lemma dedupIds_nodup (l : List String) : (dedupIds l).Nodup :=
  (dedupIds_aux l [] List.nodup_nil).1

lemma mem_dedupIds {l : List String} {x : String} : x ∈ dedupIds l ↔ x ∈ l := by
  rw [dedupIds, (dedupIds_aux l [] List.nodup_nil).2 x]
  simp

lemma findDuplicateSlot_eq_none_iff : ∀ (l : List ParsedMeal) (seen : List String),
    findDuplicateSlot seen l = none ↔
      (l.map mealKey).Nodup ∧ ∀ p ∈ l, mealKey p ∉ seen := by
  intro l
  induction l with
  | nil => intro seen; simp [findDuplicateSlot]
  | cons m rest ih =>
    intro seen
    rw [findDuplicateSlot]
    by_cases hc : seen.contains (mealKey m)
    · have hmem : mealKey m ∈ seen := by simpa using hc
      rw [if_pos hc]
      constructor
      · intro h; exact absurd h (by simp)
      · rintro ⟨-, hall⟩
        exact absurd hmem (hall m (List.mem_cons_self _ _))
    · have hnm : mealKey m ∉ seen := by simpa using hc
      rw [if_neg hc, ih]
      constructor
      · rintro ⟨hnd, hall⟩
        refine ⟨List.nodup_cons.mpr ⟨?_, hnd⟩, ?_⟩
        · intro hin
          obtain ⟨p, hp, hkey⟩ := List.mem_map.mp hin
          exact hall p hp (by rw [hkey]; exact List.mem_cons_self _ _)
        · intro p hp
          rcases List.mem_cons.mp hp with rfl | hp
          · exact hnm
          · exact fun hs => hall p hp (List.mem_cons_of_mem _ hs)
      · rintro ⟨hnd, hall⟩
        rw [List.map_cons, List.nodup_cons] at hnd
        obtain ⟨hnotin, hnd⟩ := hnd
        refine ⟨hnd, fun p hp => ?_⟩
        intro hin
        rcases List.mem_cons.mp hin with he | hs
        · exact hnotin (he ▸ List.mem_map_of_mem mealKey hp)
        · exact hall p (List.mem_cons_of_mem _ hp) hs

lemma findDuplicateSlot_first : ∀ (pre : List ParsedMeal) (seen : List String)
    (b : ParsedMeal) (post : List ParsedMeal),
    (∀ p ∈ pre, mealKey p ∉ seen) → (pre.map mealKey).Nodup →
    (mealKey b ∈ seen ∨ mealKey b ∈ pre.map mealKey) →
    findDuplicateSlot seen (pre ++ b :: post) = some b := by
  intro pre
  induction pre with
  | nil =>
    intro seen b post hseen hnd hb
    rcases hb with hb | hb
    · rw [List.nil_append, findDuplicateSlot, if_pos (by simpa using hb)]
    · exact absurd hb (by simp)
  | cons q pre ih =>
    intro seen b post hseen hnd hb
    rw [List.cons_append, findDuplicateSlot,
      if_neg (by simpa using hseen q (List.mem_cons_self _ _))]
    rw [List.map_cons, List.nodup_cons] at hnd
    obtain ⟨hqnotin, hnd⟩ := hnd
    refine ih (mealKey q :: seen) b post ?_ hnd ?_
    · intro p hp
      intro hin
      rcases List.mem_cons.mp hin with he | hs
      · exact hqnotin (he ▸ List.mem_map_of_mem mealKey hp)
      · exact hseen p (List.mem_cons_of_mem _ hp) hs
    · rcases hb with hb | hb
      · exact Or.inl (List.mem_cons_of_mem _ hb)
      · rcases List.mem_cons.mp (by simpa using hb : mealKey b ∈ mealKey q :: pre.map mealKey)
          with he | hs
        · exact Or.inl (by rw [he]; exact List.mem_cons_self _ _)
        · exact Or.inr hs

lemma first_dup_decomp : ∀ (l : List ParsedMeal) (seen : List String),
    ¬((l.map mealKey).Nodup ∧ ∀ p ∈ l, mealKey p ∉ seen) →
    ∃ pre b post, l = pre ++ b :: post ∧ (pre.map mealKey).Nodup ∧
      (∀ p ∈ pre, mealKey p ∉ seen) ∧
      (mealKey b ∈ seen ∨ mealKey b ∈ pre.map mealKey) := by
  intro l
  induction l with
  | nil =>
    intro seen h
    exact absurd ⟨by simp, by simp⟩ h
  | cons m rest ih =>
    intro seen h
    by_cases hm : mealKey m ∈ seen
    · exact ⟨[], m, rest, rfl, by simp, by simp, Or.inl hm⟩
    · have h' : ¬((rest.map mealKey).Nodup ∧ ∀ p ∈ rest, mealKey p ∉ mealKey m :: seen) := by
        rintro ⟨h1, h2⟩
        apply h
        refine ⟨List.nodup_cons.mpr ⟨?_, h1⟩, ?_⟩
        · intro hin
          obtain ⟨p, hp, hkey⟩ := List.mem_map.mp hin
          exact h2 p hp (by rw [hkey]; exact List.mem_cons_self _ _)
        · intro p hp
          rcases List.mem_cons.mp hp with rfl | hp
          · exact hm
          · exact fun hs => h2 p hp (List.mem_cons_of_mem _ hs)
      obtain ⟨pre, b, post, heq, hnd, hms, hb⟩ := ih (mealKey m :: seen) h'
      refine ⟨m :: pre, b, post, by rw [List.cons_append, heq], ?_, ?_, ?_⟩
      · rw [List.map_cons, List.nodup_cons]
        refine ⟨?_, hnd⟩
        intro hin
        obtain ⟨p, hp, hkey⟩ := List.mem_map.mp hin
        exact hms p hp (by rw [hkey]; exact List.mem_cons_self _ _)
      · intro p hp
        rcases List.mem_cons.mp hp with rfl | hp
        · exact hm
        · exact fun hs => hms p hp (List.mem_cons_of_mem _ hs)
      · rcases hb with hb | hb
        · rcases List.mem_cons.mp hb with he | hs
          · exact Or.inr (by rw [List.map_cons]; exact he ▸ List.mem_cons_self _ _)
          · exact Or.inl hs
        · exact Or.inr (by rw [List.map_cons]; exact List.mem_cons_of_mem _ hb)

lemma getMealPlans_eq (db : DB) (u : String) (wsStr : String) (weekStart : Int)
    (hws : parseDateOnly wsStr = some weekStart) :
    getMealPlans db u wsStr = .ok ⟨(findPlan db u weekStart).map (fun p => p.id), wsStr,
      sortMeals ((match findPlan db u weekStart with
        | none => []
        | some p => mealsOfPlan db p.id).map (renderMeal db.recipes))⟩ := by
  rw [getMealPlans, hws]

lemma filter_ne_then_eq (pid : Nat) (l : List MealRow) :
    (l.filter (fun m => m.planId != pid)).filter (fun m => m.planId == pid) = [] := by
  rw [List.filter_filter]
  apply List.filter_eq_nil_iff.mpr
  intro a ha
  simp [bne]

lemma filter_eq_self_rows (pid : Nat) (parsed : List ParsedMeal) :
    (parsed.map (fun m => (⟨pid, m.date, m.slot.toStr, m.recipeId⟩ : MealRow))).filter
      (fun m => m.planId == pid) =
      parsed.map (fun m => (⟨pid, m.date, m.slot.toStr, m.recipeId⟩ : MealRow)) := by
  apply List.filter_eq_self.mpr
  intro a ha
  obtain ⟨m, hm, rfl⟩ := List.mem_map.mp ha
  simp

/-- The success path of `PUT /meal-plans`: the store after the transaction has
a plan row for the pair and its meals are exactly the submitted rows. -/
lemma putMealPlans_ok_spec (db : DB) (u : String) (body : PutBody) (db' : DB)
    (resp : PlanView) (h : putMealPlans db u body = (db', .ok resp)) :
    ∃ ws parsed planId,
      parseDateOnly body.weekStart = some ws ∧
      parsePutMeals ws body.meals = .ok parsed ∧
      resp.id = some planId ∧
      db'.recipes = db.recipes ∧
      (∃ p, findPlan db' u ws = some p ∧ p.id = planId) ∧
      mealsOfPlan db' planId =
        parsed.map (fun m => (⟨planId, m.date, m.slot.toStr, m.recipeId⟩ : MealRow)) := by
  rw [putMealPlans] at h
  cases hws : parseDateOnly body.weekStart with
  | none => rw [hws] at h; exact absurd h (by simp)
  | some ws =>
    rw [hws] at h
    simp only [] at h
    cases hparse : parsePutMeals ws body.meals with
    | error e => rw [hparse] at h; exact absurd h (by simp)
    | ok parsed =>
      rw [hparse] at h
      simp only [] at h
      cases hdup : findDuplicateSlot [] parsed with
      | some m => rw [hdup] at h; exact absurd h (by simp)
      | none =>
        rw [hdup] at h
        simp only [] at h
        split at h
        · exact absurd h (by simp)
        case isFalse hcond =>
          cases hex : findPlan db u ws with
          | some p =>
            rw [hex] at h
            simp only [] at h
            simp only [Prod.mk.injEq, Except.ok.injEq] at h
            obtain ⟨hdb, hresp⟩ := h
            subst hdb
            subst hresp
            refine ⟨ws, parsed, p.id, rfl, hparse, rfl, rfl, ⟨p, hex, rfl⟩, ?_⟩
            show List.filter _ (_ ++ _) = _
            rw [List.filter_append, filter_ne_then_eq, filter_eq_self_rows, List.nil_append]
          | none =>
            rw [hex] at h
            simp only [] at h
            simp only [Prod.mk.injEq, Except.ok.injEq] at h
            obtain ⟨hdb, hresp⟩ := h
            subst hdb
            subst hresp
            refine ⟨ws, parsed, db.nextPlanId, rfl, hparse, rfl, rfl, ?_, ?_⟩
            · refine ⟨⟨db.nextPlanId, u, ws⟩, ?_, rfl⟩
              show (db.plans ++ [(⟨db.nextPlanId, u, ws⟩ : PlanRow)]).find?
                  (fun p => p.userId == u && p.weekStart == ws) =
                  some (⟨db.nextPlanId, u, ws⟩ : PlanRow)
              rw [find?_append_of_none _ _ hex]
              rw [List.find?_cons_of_pos _ (by simp)]
            · show List.filter _ (_ ++ _) = _
              rw [List.filter_append, filter_ne_then_eq, filter_eq_self_rows, List.nil_append]

/-- C1: a successful `PUT /meal-plans` replaces the stored plan wholesale:
afterwards the PlannedMeals stored for (owner, weekStart) are exactly the
submitted meals, and an empty submission leaves the week with zero meals, so a
subsequent `GET` returns an empty meals list. -/
theorem putMealPlans_replaces_wholesale (db : DB) (u : String) (body : PutBody)
    (db' : DB) (resp : PlanView) (h : putMealPlans db u body = (db', .ok resp)) :
    ∃ ws parsed planId,
      parseDateOnly body.weekStart = some ws ∧
      parsePutMeals ws body.meals = .ok parsed ∧
      parsed.map (fun p => (⟨formatDateOnly p.date, p.slot, p.recipeId⟩ : MealInput)) =
        body.meals ∧
      (∃ p, findPlan db' u ws = some p ∧ p.id = planId) ∧
      mealsOfPlan db' planId =
        parsed.map (fun m => (⟨planId, m.date, m.slot.toStr, m.recipeId⟩ : MealRow)) ∧
      (body.meals = [] →
        getMealPlans db' u body.weekStart = .ok ⟨some planId, body.weekStart, []⟩) := by
  obtain ⟨ws, parsed, planId, hws, hparse, hrespid, hrecs, ⟨p, hfind, hpid⟩, hmeals⟩ :=
    putMealPlans_ok_spec db u body db' resp h
  refine ⟨ws, parsed, planId, hws, hparse,
    (parsePutMeals_ok ws body.meals parsed hparse).1, ⟨p, hfind, hpid⟩, hmeals, ?_⟩
  intro hempty
  rw [hempty] at hparse
  rw [parsePutMeals] at hparse
  simp only [Except.ok.injEq] at hparse
  have hparsed : parsed = [] := hparse.symm
  subst hparsed
  have hplanmeals : mealsOfPlan db' planId = [] := by
    rw [hmeals, List.map_nil]
  rw [getMealPlans_eq db' u body.weekStart ws hws]
  simp [hfind, hplanmeals, hpid, sortMeals]

theorem putMealPlans_replaces_wholesale_witness :
    ∃ ws parsed planId,
      parseDateOnly (PutBody.mk "2024-01-01" [⟨"2024-01-02", .lunch, "r1"⟩]).weekStart =
        some ws ∧
      parsePutMeals ws (PutBody.mk "2024-01-01" [⟨"2024-01-02", .lunch, "r1"⟩]).meals =
        .ok parsed ∧
      parsed.map (fun p => (⟨formatDateOnly p.date, p.slot, p.recipeId⟩ : MealInput)) =
        (PutBody.mk "2024-01-01" [⟨"2024-01-02", .lunch, "r1"⟩]).meals ∧
      (∃ p, findPlan (DB.mk [⟨"r1", "u1", "Pasta"⟩] [⟨0, "u1", toDate 2024 1 1⟩]
          [⟨0, toDate 2024 1 2, "lunch", "r1"⟩] 1) "u1" ws = some p ∧ p.id = planId) ∧
      mealsOfPlan (DB.mk [⟨"r1", "u1", "Pasta"⟩] [⟨0, "u1", toDate 2024 1 1⟩]
          [⟨0, toDate 2024 1 2, "lunch", "r1"⟩] 1) planId =
        parsed.map (fun m => (⟨planId, m.date, m.slot.toStr, m.recipeId⟩ : MealRow)) ∧
      ((PutBody.mk "2024-01-01" [⟨"2024-01-02", .lunch, "r1"⟩]).meals = [] →
        getMealPlans (DB.mk [⟨"r1", "u1", "Pasta"⟩] [⟨0, "u1", toDate 2024 1 1⟩]
          [⟨0, toDate 2024 1 2, "lunch", "r1"⟩] 1) "u1"
          (PutBody.mk "2024-01-01" [⟨"2024-01-02", .lunch, "r1"⟩]).weekStart =
          .ok ⟨some planId, (PutBody.mk "2024-01-01" [⟨"2024-01-02", .lunch, "r1"⟩]).weekStart, []⟩) :=
  putMealPlans_replaces_wholesale (DB.mk [⟨"r1", "u1", "Pasta"⟩] [] [] 0) "u1"
    (PutBody.mk "2024-01-01" [⟨"2024-01-02", .lunch, "r1"⟩])
    (DB.mk [⟨"r1", "u1", "Pasta"⟩] [⟨0, "u1", toDate 2024 1 1⟩]
      [⟨0, toDate 2024 1 2, "lunch", "r1"⟩] 1)
    (PlanView.mk (some 0) "2024-01-01" [⟨"2024-01-02", "lunch", "r1", "Pasta"⟩]) (by rfl)

/-- C10: a successful `PUT /meal-plans` always leaves a MealPlan row for
(owner, weekStart) — also for an empty meals list — so a subsequent `GET`
returns a non-null id; `GET` returns a null id exactly when no plan row
exists for the pair. -/
theorem put_ensures_plan_row :
    (∀ db u body db' resp, putMealPlans db u body = (db', .ok resp) →
      ∃ ws planId, parseDateOnly body.weekStart = some ws ∧
        resp.id = some planId ∧
        (∃ p, findPlan db' u ws = some p ∧ p.id = planId) ∧
        (∃ r, getMealPlans db' u body.weekStart = .ok r ∧ r.id = some planId)) ∧
    (∀ db u wsStr ws r, parseDateOnly wsStr = some ws →
      getMealPlans db u wsStr = .ok r →
      (r.id = none ↔ findPlan db u ws = none)) := by
  constructor
  · intro db u body db' resp h
    obtain ⟨ws, parsed, planId, hws, hparse, hrespid, hrecs, ⟨p, hfind, hpid⟩, hmeals⟩ :=
      putMealPlans_ok_spec db u body db' resp h
    refine ⟨ws, planId, hws, hrespid, ⟨p, hfind, hpid⟩,
      ⟨_, getMealPlans_eq db' u body.weekStart ws hws, ?_⟩⟩
    simp [hfind, hpid]
  · intro db u wsStr ws r hws hget
    rw [getMealPlans_eq db u wsStr ws hws] at hget
    simp only [Except.ok.injEq] at hget
    rw [← hget]
    simp only []
    cases hfp : findPlan db u ws <;> simp [hfp]

theorem put_ensures_plan_row_witness :
    (∃ ws planId,
      parseDateOnly (PutBody.mk "2024-01-01" []).weekStart = some ws ∧
      (PlanView.mk (some 0) "2024-01-01" []).id = some planId ∧
      (∃ p, findPlan (DB.mk [] [⟨0, "u1", toDate 2024 1 1⟩] [] 1) "u1" ws = some p ∧
        p.id = planId) ∧
      (∃ r, getMealPlans (DB.mk [] [⟨0, "u1", toDate 2024 1 1⟩] [] 1) "u1"
          (PutBody.mk "2024-01-01" []).weekStart = .ok r ∧ r.id = some planId)) ∧
    ((PlanView.mk none "2024-01-01" []).id = none ↔
      findPlan (DB.mk [] [] [] 0) "u1" (toDate 2024 1 1) = none) :=
  ⟨put_ensures_plan_row.1 (DB.mk [] [] [] 0) "u1" (PutBody.mk "2024-01-01" [])
      (DB.mk [] [⟨0, "u1", toDate 2024 1 1⟩] [] 1)
      (PlanView.mk (some 0) "2024-01-01" []) (by rfl),
    put_ensures_plan_row.2 (DB.mk [] [] [] 0) "u1" "2024-01-01" (toDate 2024 1 1)
      (PlanView.mk none "2024-01-01" []) (by rfl) (by rfl)⟩

/-- C2: a `PUT /meal-plans` body containing two meals with the same
(date, slot), after passing date validation, fails with HTTP 400 naming the
offending date; the error is triggered by the first second-occurrence in
submission order (the prefix before it has pairwise-distinct keys), and the
store is left unchanged. -/
theorem putMealPlans_duplicate_slot (db : DB) (u : String) (body : PutBody)
    (weekStart : Int) (parsed : List ParsedMeal)
    (hws : parseDateOnly body.weekStart = some weekStart)
    (hparse : parsePutMeals weekStart body.meals = .ok parsed)
    (hdup : ∃ i j : Fin body.meals.length, (i : Nat) < (j : Nat) ∧
      (body.meals.get i).date = (body.meals.get j).date ∧
      (body.meals.get i).slot = (body.meals.get j).slot) :
    ∃ pre b post, parsed = pre ++ b :: post ∧
      (pre.map mealKey).Nodup ∧
      (∃ a ∈ pre, mealKey a = mealKey b) ∧
      (⟨formatDateOnly b.date, b.slot, b.recipeId⟩ : MealInput) ∈ body.meals ∧
      putMealPlans db u body =
        (db, .error ⟨400, "Duplicate slot for date " ++ formatDateOnly b.date⟩) := by
  obtain ⟨hmap, hall⟩ := parsePutMeals_ok weekStart body.meals parsed hparse
  have hkeys : parsed.map mealKey =
      body.meals.map (fun m => m.date ++ ":" ++ m.slot.toStr) := by
    rw [← hmap, List.map_map]
    rfl
  have hnotnodup : ¬ (parsed.map mealKey).Nodup := by
    rw [hkeys]
    intro hnd
    obtain ⟨i, j, hij, hdate, hslot⟩ := hdup
    have hlen : (body.meals.map (fun m => m.date ++ ":" ++ m.slot.toStr)).length =
        body.meals.length := List.length_map _ _
    have hi : (i : Nat) < (body.meals.map (fun m => m.date ++ ":" ++ m.slot.toStr)).length := by
      rw [hlen]; exact i.isLt
    have hj : (j : Nat) < (body.meals.map (fun m => m.date ++ ":" ++ m.slot.toStr)).length := by
      rw [hlen]; exact j.isLt
    have hget : (body.meals.map (fun m => m.date ++ ":" ++ m.slot.toStr)).get ⟨i, hi⟩ =
        (body.meals.map (fun m => m.date ++ ":" ++ m.slot.toStr)).get ⟨j, hj⟩ := by
      simp only [List.get_eq_getElem, List.getElem_map]
      rw [show body.meals[(i : Nat)] = body.meals.get i from rfl,
        show body.meals[(j : Nat)] = body.meals.get j from rfl, hdate, hslot]
    have hinj := hnd.get_inj_iff.mp hget
    rw [Fin.mk.injEq] at hinj
    omega
  obtain ⟨pre, b, post, heq, hnd, hseen, hb⟩ :=
    first_dup_decomp parsed [] (fun hc => hnotnodup hc.1)
  have hbkey : mealKey b ∈ pre.map mealKey := by
    rcases hb with hb | hb
    · exact absurd hb (by simp)
    · exact hb
  have hfound : findDuplicateSlot [] parsed = some b := by
    rw [heq]
    exact findDuplicateSlot_first pre [] b post (by simp) hnd (Or.inr hbkey)
  refine ⟨pre, b, post, heq, hnd, ?_, ?_, ?_⟩
  · obtain ⟨a, ha, hak⟩ := List.mem_map.mp hbkey
    exact ⟨a, ha, hak⟩
  · rw [← hmap]
    refine List.mem_map_of_mem _ ?_
    rw [heq]
    exact List.mem_append.mpr (Or.inr (List.mem_cons_self _ _))
  · rw [putMealPlans, hws]
    simp only []
    rw [hparse]
    simp only []
    rw [hfound]

theorem putMealPlans_duplicate_slot_witness :
    ∃ pre b post,
      [(⟨toDate 2024 1 1, .breakfast, "r1"⟩ : ParsedMeal),
        ⟨toDate 2024 1 1, .breakfast, "r2"⟩] = pre ++ b :: post ∧
      (pre.map mealKey).Nodup ∧
      (∃ a ∈ pre, mealKey a = mealKey b) ∧
      (⟨formatDateOnly b.date, b.slot, b.recipeId⟩ : MealInput) ∈
        (PutBody.mk "2024-01-01" [⟨"2024-01-01", .breakfast, "r1"⟩,
          ⟨"2024-01-01", .breakfast, "r2"⟩]).meals ∧
      putMealPlans (DB.mk [⟨"r1", "u1", "Pasta"⟩, ⟨"r2", "u1", "Soup"⟩] [] [] 0) "u1"
          (PutBody.mk "2024-01-01" [⟨"2024-01-01", .breakfast, "r1"⟩,
            ⟨"2024-01-01", .breakfast, "r2"⟩]) =
        (DB.mk [⟨"r1", "u1", "Pasta"⟩, ⟨"r2", "u1", "Soup"⟩] [] [] 0,
          .error ⟨400, "Duplicate slot for date " ++ formatDateOnly b.date⟩) :=
  putMealPlans_duplicate_slot (DB.mk [⟨"r1", "u1", "Pasta"⟩, ⟨"r2", "u1", "Soup"⟩] [] [] 0)
    "u1"
    (PutBody.mk "2024-01-01" [⟨"2024-01-01", .breakfast, "r1"⟩,
      ⟨"2024-01-01", .breakfast, "r2"⟩])
    (toDate 2024 1 1)
    [⟨toDate 2024 1 1, .breakfast, "r1"⟩, ⟨toDate 2024 1 1, .breakfast, "r2"⟩]
    (by rfl) (by rfl) (by decide)

/-- C3: the recipe check in `PUT /meal-plans` works on the deduplicated set of
referenced recipe ids via one lookup restricted to the requesting user, and
fails with HTTP 400 (with a fixed message enumerating nothing) exactly when
the number of found rows is strictly less than the number of distinct ids; an
empty meals list cannot fail this check. -/
theorem putMealPlans_recipe_check (db : DB) (u : String) (body : PutBody)
    (weekStart : Int) (parsed : List ParsedMeal)
    (hdbnodup : (db.recipes.map (fun r => r.id)).Nodup)
    (hws : parseDateOnly body.weekStart = some weekStart)
    (hparse : parsePutMeals weekStart body.meals = .ok parsed)
    (hnodup : (parsed.map mealKey).Nodup) :
    (putMealPlans db u body =
        (db, .error ⟨400, "One or more recipes were not found for this user"⟩) ↔
      (db.recipes.filter (fun r => r.userId == u &&
          (dedupIds (parsed.map (fun m => m.recipeId))).contains r.id)).length <
        (dedupIds (parsed.map (fun m => m.recipeId))).length) ∧
    (body.meals = [] → ∃ db' resp, putMealPlans db u body = (db', .ok resp)) := by
  have hdupnone : findDuplicateSlot [] parsed = none :=
    (findDuplicateSlot_eq_none_iff parsed []).mpr ⟨hnodup, fun p _ => by simp⟩
  have hle : (db.recipes.filter (fun r => r.userId == u &&
      (dedupIds (parsed.map (fun m => m.recipeId))).contains r.id)).length ≤
      (dedupIds (parsed.map (fun m => m.recipeId))).length := by
    have hnd : ((db.recipes.filter (fun r => r.userId == u &&
        (dedupIds (parsed.map (fun m => m.recipeId))).contains r.id)).map
          (fun r => r.id)).Nodup :=
      List.Nodup.sublist (List.Sublist.map _ (List.filter_sublist _)) hdbnodup
    have hsubset : ((db.recipes.filter (fun r => r.userId == u &&
        (dedupIds (parsed.map (fun m => m.recipeId))).contains r.id)).map
          (fun r => r.id)) ⊆ dedupIds (parsed.map (fun m => m.recipeId)) := by
      intro x hx
      obtain ⟨r, hr, rfl⟩ := List.mem_map.mp hx
      have hcond := (List.mem_filter.mp hr).2
      simp only [Bool.and_eq_true] at hcond
      simpa using hcond.2
    have hlen := (List.subperm_of_subset hnd hsubset).length_le
    simpa using hlen
  constructor
  · constructor
    · intro herr
      rw [putMealPlans, hws] at herr
      simp only [] at herr
      rw [hparse] at herr
      simp only [] at herr
      rw [hdupnone] at herr
      simp only [] at herr
      split at herr
      case isTrue hcond => omega
      case isFalse => exact absurd herr (by simp)
    · intro hlt
      rw [putMealPlans, hws]
      simp only []
      rw [hparse]
      simp only []
      rw [hdupnone]
      simp only []
      rw [if_pos ⟨by omega, by omega⟩]
  · intro hempty
    rw [hempty] at hparse
    rw [parsePutMeals] at hparse
    simp only [Except.ok.injEq] at hparse
    have hparsed : parsed = [] := hparse.symm
    subst hparsed
    rw [putMealPlans, hws, hempty]
    simp only []
    rw [show parsePutMeals weekStart [] = .ok [] from rfl]
    simp only []
    rw [show findDuplicateSlot [] ([] : List ParsedMeal) = none from rfl]
    simp only []
    rw [if_neg (by simp [dedupIds])]
    exact ⟨_, _, rfl⟩

theorem putMealPlans_recipe_check_witness :
    (putMealPlans (DB.mk [⟨"r1", "u1", "Pasta"⟩] [] [] 0) "u1"
        (PutBody.mk "2024-01-01" [⟨"2024-01-02", .lunch, "rX"⟩]) =
        ((DB.mk [⟨"r1", "u1", "Pasta"⟩] [] [] 0),
          .error ⟨400, "One or more recipes were not found for this user"⟩) ↔
      ((DB.mk [⟨"r1", "u1", "Pasta"⟩] [] [] 0).recipes.filter (fun r => r.userId == "u1" &&
          (dedupIds (([(⟨toDate 2024 1 2, .lunch, "rX"⟩ : ParsedMeal)]).map
            (fun m => m.recipeId))).contains r.id)).length <
        (dedupIds (([(⟨toDate 2024 1 2, .lunch, "rX"⟩ : ParsedMeal)]).map
          (fun m => m.recipeId))).length) ∧
    ((PutBody.mk "2024-01-01" [⟨"2024-01-02", .lunch, "rX"⟩]).meals = [] →
      ∃ db' resp, putMealPlans (DB.mk [⟨"r1", "u1", "Pasta"⟩] [] [] 0) "u1"
        (PutBody.mk "2024-01-01" [⟨"2024-01-02", .lunch, "rX"⟩]) = (db', .ok resp)) :=
  putMealPlans_recipe_check (DB.mk [⟨"r1", "u1", "Pasta"⟩] [] [] 0) "u1"
    (PutBody.mk "2024-01-01" [⟨"2024-01-02", .lunch, "rX"⟩])
    (toDate 2024 1 1) [⟨toDate 2024 1 2, .lunch, "rX"⟩]
    (by decide) (by rfl) (by rfl) (by decide)

lemma nutritionNonneg_add {a b : Nutrition} (ha : nutritionNonneg a) (hb : nutritionNonneg b) :
    nutritionNonneg (add a b) := by
  obtain ⟨h1, h2, h3, h4⟩ := ha
  obtain ⟨g1, g2, g3, g4⟩ := hb
  exact ⟨by simpa [add] using add_nonneg h1 g1, by simpa [add] using add_nonneg h2 g2,
    by simpa [add] using add_nonneg h3 g3, by simpa [add] using add_nonneg h4 g4⟩

lemma nutritionNonneg_item {it : RecipeItem} (h : itemOk it) :
    nutritionNonneg (itemNutrition it) := by
  obtain ⟨h1, h2, h3, h4, h5⟩ := h
  have hq : 0 ≤ it.quantityG / 100 := div_nonneg h5.le (by norm_num)
  exact ⟨mul_nonneg h1 hq, mul_nonneg h2 hq, mul_nonneg h3 hq, mul_nonneg h4 hq⟩

lemma recipeTotals_nonneg_aux (items : List RecipeItem) (acc : Nutrition)
    (hacc : nutritionNonneg acc) (h : ∀ it ∈ items, itemOk it) :
    nutritionNonneg (items.foldl (fun acc it => add acc (itemNutrition it)) acc) := by
  induction items generalizing acc with
  | nil => exact hacc
  | cons x xs ih =>
    exact ih _ (nutritionNonneg_add hacc (nutritionNonneg_item (h x (by simp))))
      (fun it hit => h it (by simp [hit]))

lemma recipeTotals_nonneg {items : List RecipeItem} (h : ∀ it ∈ items, itemOk it) :
    nutritionNonneg (recipeTotals items) :=
  recipeTotals_nonneg_aux items ⟨0, 0, 0, 0⟩ ⟨le_refl 0, le_refl 0, le_refl 0, le_refl 0⟩ h

lemma perServingOf_nonneg {t : Nutrition} (ht : nutritionNonneg t) (servings : ℕ) :
    nutritionNonneg (perServingOf t servings) := by
  obtain ⟨h1, h2, h3, h4⟩ := ht
  have hs : (0 : ℚ) ≤ servings := Nat.cast_nonneg servings
  exact ⟨div_nonneg h1 hs, div_nonneg h2 hs, div_nonneg h3 hs, div_nonneg h4 hs⟩

lemma round1_eq_roundHalfAwayTenth {x : ℚ} (hx : 0 ≤ x) :
    round1 x = roundHalfAwayTenth x := by
  rw [round1, roundHalfAwayTenth, if_pos hx, jsRound]

lemma roundNutrition_eq_roundHalfAway {n : Nutrition} (hn : nutritionNonneg n) :
    roundNutrition n = roundHalfAwayNutrition n := by
  obtain ⟨h1, h2, h3, h4⟩ := hn
  simp [roundNutrition, roundHalfAwayNutrition, round1_eq_roundHalfAwayTenth h1,
    round1_eq_roundHalfAwayTenth h2, round1_eq_roundHalfAwayTenth h3,
    round1_eq_roundHalfAwayTenth h4]

/-- C7: every nutrition value returned by the aggregator (each of kcal, protein,
carbs, fat, in both totals and per-serving values) is rounded to one decimal
place using round-half-away-from-zero at 0.1 granularity. -/
theorem aggregator_rounds_half_away_from_zero (items : List RecipeItem) (servings : ℕ)
    (hitems : ∀ it ∈ items, itemOk it) (hs : 1 ≤ servings) :
    roundNutrition (recipeTotals items) = roundHalfAwayNutrition (recipeTotals items) ∧
    roundNutrition (perServingOf (recipeTotals items) servings) =
      roundHalfAwayNutrition (perServingOf (recipeTotals items) servings) :=
  ⟨roundNutrition_eq_roundHalfAway (recipeTotals_nonneg hitems),
    roundNutrition_eq_roundHalfAway (perServingOf_nonneg (recipeTotals_nonneg hitems) servings)⟩

theorem aggregator_rounds_half_away_from_zero_witness :
    roundNutrition (recipeTotals demoItems) = roundHalfAwayNutrition (recipeTotals demoItems) ∧
    roundNutrition (perServingOf (recipeTotals demoItems) 2) =
      roundHalfAwayNutrition (perServingOf (recipeTotals demoItems) 2) :=
  aggregator_rounds_half_away_from_zero demoItems 2 (by decide) (by decide)

lemma foldl_add_shift (f : RecipeItem → Nutrition) (l : List RecipeItem) (init : Nutrition) :
    l.foldl (fun acc it => add acc (f it)) init =
      add init (l.foldl (fun acc it => add acc (f it)) ⟨0, 0, 0, 0⟩) := by
  induction l generalizing init with
  | nil => simp [add]
  | cons x xs ih =>
    simp only [List.foldl_cons]
    rw [ih (add init (f x)), ih (add ⟨0, 0, 0, 0⟩ (f x))]
    simp [add, add_assoc]

/-- C8: for item lists with non-negative macro values and positive quantities,
the pre-rounding total over a concatenation is the component-wise `add` of the
totals of the parts. -/
theorem recipeTotals_append (A B : List RecipeItem)
    (hA : ∀ it ∈ A, itemOk it) (hB : ∀ it ∈ B, itemOk it) :
    recipeTotals (A ++ B) = add (recipeTotals A) (recipeTotals B) := by
  unfold recipeTotals
  rw [List.foldl_append, foldl_add_shift]

theorem recipeTotals_append_witness :
    recipeTotals (demoItems ++ [⟨⟨52, 0, 14, 0⟩, 150⟩]) =
      add (recipeTotals demoItems) (recipeTotals [⟨⟨52, 0, 14, 0⟩, 150⟩]) :=
  recipeTotals_append demoItems [⟨⟨52, 0, 14, 0⟩, 150⟩] (by decide) (by decide)

/-- C6: `isWithinWeek(date, weekStart)` is true iff `0 ≤ date − weekStart ≤ 6`
days; in particular true at offsets 0 and +6 days, false at +7 and −1 days. -/
theorem isWithinWeek_closed_window :
    (∀ date weekStart : Int,
        isWithinWeek date weekStart = true ↔
          0 ≤ date - weekStart ∧ date - weekStart ≤ 6 * dayMs) ∧
    (∀ w : Int,
        isWithinWeek w w = true ∧ isWithinWeek (w + 6 * dayMs) w = true ∧
          isWithinWeek (w + 7 * dayMs) w = false ∧ isWithinWeek (w - dayMs) w = false) := by
  constructor
  · intro date weekStart
    simp only [isWithinWeek, Bool.and_eq_true, decide_eq_true_eq, dayMs]
    omega
  · intro w
    simp only [isWithinWeek, Bool.and_eq_true, Bool.and_eq_false_iff,
      decide_eq_true_eq, decide_eq_false_iff_not, dayMs]
    omega

end MealOps
